import Mathlib

/-!
Verification of the hybrid raster refinement step of the upstream
delineator (`split_catchment` in `merit_detailed.py` and `get_largest`
in `util.py`), over a shallow embedding in Lean.

Coordinates are rationals; grids are functions `ℤ → ℤ → ℤ` over cell
indices together with a `(rows, cols)` shape; the source's per-pixel
masking loops are embedded as folds over index ranges.  The external
pysheds collaborators (`snap_to_mask`, `catchment`) are not part of the
repository: where a property depends on them they are modelled from the
specification, and those definitions say so in their doc comments.
-/

namespace Delineator

/-- The source's hardcoded half-pixel distance, `halfpix = 0.000416667`
(a decimal rounding of half of 1/1200). -/
def halfpix : ℚ := 416667 / 1000000000

/-- The bounding-box alignment performed on `catchment_poly.bounds`:
round the edges down/down/up/up to whole multiples of 1/1200 of a
degree, then move each edge outward by `halfpix`. -/
def alignBounds (xmin ymin xmax ymax : ℚ) : ℚ × ℚ × ℚ × ℚ :=
  ((⌊xmin * 1200⌋ : ℚ) / 1200 - halfpix,
   (⌊ymin * 1200⌋ : ℚ) / 1200 - halfpix,
   (⌈xmax * 1200⌉ : ℚ) / 1200 + halfpix,
   (⌈ymax * 1200⌉ : ℚ) / 1200 + halfpix)

/-- Claim C3 (counterexample): the computed window does not equal the
claimed formula with `h = (1/1200)/2 = 1/2400`: the source's constant
`0.000416667` is a 9-decimal rounding of `1/2400` and differs from it.
At the input box `(0,0,0,0)` the computed window is
`(-halfpix, -halfpix, halfpix, halfpix)`, not `(-1/2400, -1/2400, 1/2400, 1/2400)`. -/
theorem alignBounds_ne_spec_halfpixel :
    alignBounds 0 0 0 0 ≠ (-(1/2400), -(1/2400), 1/2400, 1/2400) := by
  intro h
  have h1 := congrArg Prod.fst h
  simp only [alignBounds] at h1
  norm_num [halfpix] at h1

/-- Claim C3 (amended): the computed window equals exactly
`(⌊xmin*1200⌋/1200 - h, ⌊ymin*1200⌋/1200 - h, ⌈xmax*1200⌉/1200 + h,
⌈ymax*1200⌉/1200 + h)` with `h = 0.000416667` (the code's constant,
slightly larger than half a pixel), therefore it contains the input box
with at least a half-pixel (`1/2400`) margin on every side, and each
bound is a whole multiple of `1/1200` moved outward by `h`. -/
theorem alignBounds_amended_spec (xmin ymin xmax ymax : ℚ) :
    alignBounds xmin ymin xmax ymax =
      ((⌊xmin * 1200⌋ : ℚ) / 1200 - halfpix,
       (⌊ymin * 1200⌋ : ℚ) / 1200 - halfpix,
       (⌈xmax * 1200⌉ : ℚ) / 1200 + halfpix,
       (⌈ymax * 1200⌉ : ℚ) / 1200 + halfpix) ∧
    (alignBounds xmin ymin xmax ymax).1 ≤ xmin - 1/2400 ∧
    (alignBounds xmin ymin xmax ymax).2.1 ≤ ymin - 1/2400 ∧
    xmax + 1/2400 ≤ (alignBounds xmin ymin xmax ymax).2.2.1 ∧
    ymax + 1/2400 ≤ (alignBounds xmin ymin xmax ymax).2.2.2 ∧
    ∃ a b c d : ℤ,
      alignBounds xmin ymin xmax ymax =
        ((a : ℚ) / 1200 - halfpix, (b : ℚ) / 1200 - halfpix,
         (c : ℚ) / 1200 + halfpix, (d : ℚ) / 1200 + halfpix) := by
  have hfx : (⌊xmin * 1200⌋ : ℚ) ≤ xmin * 1200 := Int.floor_le _
  have hfy : (⌊ymin * 1200⌋ : ℚ) ≤ ymin * 1200 := Int.floor_le _
  have hcx : xmax * 1200 ≤ (⌈xmax * 1200⌉ : ℚ) := Int.le_ceil _
  have hcy : ymax * 1200 ≤ (⌈ymax * 1200⌉ : ℚ) := Int.le_ceil _
  have hh : (1/2400 : ℚ) ≤ halfpix := by norm_num [halfpix]
  refine ⟨rfl, ?_, ?_, ?_, ?_, ⟨⌊xmin * 1200⌋, ⌊ymin * 1200⌋, ⌈xmax * 1200⌉, ⌈ymax * 1200⌉, rfl⟩⟩
  · show (⌊xmin * 1200⌋ : ℚ) / 1200 - halfpix ≤ xmin - 1/2400
    nlinarith
  · show (⌊ymin * 1200⌋ : ℚ) / 1200 - halfpix ≤ ymin - 1/2400
    nlinarith
  · show xmax + 1/2400 ≤ (⌈xmax * 1200⌉ : ℚ) / 1200 + halfpix
    nlinarith
  · show ymax + 1/2400 ≤ (⌈ymax * 1200⌉ : ℚ) / 1200 + halfpix
    nlinarith

/-- Pointwise update of a grid (the effect of `g[i, j] = v`). -/
def update2 (g : ℤ → ℤ → ℤ) (i j : ℤ) (v : ℤ) : ℤ → ℤ → ℤ :=
  fun a b => if a = i ∧ b = j then v else g a b

/-- The inner masking loop `for j in range(0, n): if int(mymask[i, j]) == 0: g[i, j] = 0`
for a fixed row `i`. -/
def maskRow (mask : ℤ → ℤ → Bool) (n : ℕ) (i : ℤ) (g : ℤ → ℤ → ℤ) : ℤ → ℤ → ℤ :=
  (List.range n).foldl
    (fun g (j : ℕ) => if mask i (j : ℤ) then g else update2 g i (j : ℤ) 0) g

/-- The masking double loop from `split_catchment`: zero every cell of `g`
whose mask value is 0, over rows `0..m-1` and columns `0..n-1`. -/
def maskLoop (mask : ℤ → ℤ → Bool) (m n : ℕ) (g : ℤ → ℤ → ℤ) : ℤ → ℤ → ℤ :=
  (List.range m).foldl (fun g (i : ℕ) => maskRow mask n (i : ℤ) g) g

lemma maskRow_succ (mask : ℤ → ℤ → Bool) (n : ℕ) (i : ℤ) (g : ℤ → ℤ → ℤ) :
    maskRow mask (n + 1) i g =
      (if mask i (n : ℤ) then maskRow mask n i g
       else update2 (maskRow mask n i g) i (n : ℤ) 0) := by
  unfold maskRow
  rw [List.range_succ, List.foldl_append, List.foldl_cons, List.foldl_nil]

lemma maskRow_apply (mask : ℤ → ℤ → Bool) (i : ℤ) (a b : ℤ) :
    ∀ (n : ℕ) (g : ℤ → ℤ → ℤ), maskRow mask n i g a b =
      if a = i ∧ 0 ≤ b ∧ b < (n : ℤ) ∧ mask i b = false then 0 else g a b := by
  intro n
  induction n with
  | zero =>
    intro g
    rw [if_neg]
    · rfl
    · rintro ⟨-, hb, hb', -⟩; omega
  | succ n IH =>
    intro g
    rw [maskRow_succ]
    rcases Bool.eq_false_or_eq_true (mask i (n : ℤ)) with hm | hm
    · rw [if_pos hm, IH g]
      by_cases h1 : a = i ∧ 0 ≤ b ∧ b < (n : ℤ) ∧ mask i b = false
      · rw [if_pos h1, if_pos ⟨h1.1, h1.2.1, by push_cast; omega, h1.2.2.2⟩]
      · rw [if_neg h1, if_neg]
        rintro ⟨ha, h0, hlt, hmk⟩
        push_cast at hlt
        rcases (by omega : b < (n : ℤ) ∨ b = (n : ℤ)) with hb | hb
        · exact h1 ⟨ha, h0, hb, hmk⟩
        · rw [hb] at hmk
          rw [hmk] at hm
          cases hm
    · rw [if_neg (by rw [hm]; exact Bool.false_ne_true)]
      show update2 (maskRow mask n i g) i (n : ℤ) 0 a b = _
      unfold update2
      by_cases hab : a = i ∧ b = (n : ℤ)
      · rw [if_pos hab,
          if_pos ⟨hab.1, by omega, by push_cast; omega, hab.2 ▸ hm⟩]
      · rw [if_neg hab, IH g]
        by_cases h1 : a = i ∧ 0 ≤ b ∧ b < (n : ℤ) ∧ mask i b = false
        · rw [if_pos h1, if_pos ⟨h1.1, h1.2.1, by push_cast; omega, h1.2.2.2⟩]
        · rw [if_neg h1, if_neg]
          rintro ⟨ha, h0, hlt, hmk⟩
          push_cast at hlt
          rcases (by omega : b < (n : ℤ) ∨ b = (n : ℤ)) with hb | hb
          · exact h1 ⟨ha, h0, hb, hmk⟩
          · exact hab ⟨ha, hb⟩

lemma maskLoop_succ (mask : ℤ → ℤ → Bool) (m n : ℕ) (g : ℤ → ℤ → ℤ) :
    maskLoop mask (m + 1) n g = maskRow mask n (m : ℤ) (maskLoop mask m n g) := by
  unfold maskLoop
  rw [List.range_succ, List.foldl_append, List.foldl_cons, List.foldl_nil]

lemma maskLoop_apply (mask : ℤ → ℤ → Bool) (a b : ℤ) :
    ∀ (m : ℕ) (n : ℕ) (g : ℤ → ℤ → ℤ), maskLoop mask m n g a b =
      if 0 ≤ a ∧ a < (m : ℤ) ∧ 0 ≤ b ∧ b < (n : ℤ) ∧ mask a b = false then 0
      else g a b := by
  intro m
  induction m with
  | zero =>
    intro n g
    rw [if_neg]
    · rfl
    · rintro ⟨ha, ha', -⟩; omega
  | succ m IH =>
    intro n g
    rw [maskLoop_succ, maskRow_apply]
    by_cases hrow : a = (m : ℤ) ∧ 0 ≤ b ∧ b < (n : ℤ) ∧ mask (m : ℤ) b = false
    · rw [if_pos hrow, if_pos (by
        obtain ⟨ha, h0, hlt, hmk⟩ := hrow
        exact ⟨by omega, by push_cast; omega, h0, hlt, ha ▸ hmk⟩)]
    · rw [if_neg hrow, IH]
      by_cases h1 : 0 ≤ a ∧ a < (m : ℤ) ∧ 0 ≤ b ∧ b < (n : ℤ) ∧ mask a b = false
      · rw [if_pos h1, if_pos (by
          obtain ⟨h0, hlt, hrest⟩ := h1
          exact ⟨h0, by push_cast; omega, hrest⟩)]
      · rw [if_neg h1, if_neg]
        rintro ⟨h0, hlt, h0b, hltb, hmk⟩
        push_cast at hlt
        rcases (by omega : a < (m : ℤ) ∨ a = (m : ℤ)) with h | h
        · exact h1 ⟨h0, h, h0b, hltb, hmk⟩
        · exact hrow ⟨h, h0b, hltb, h ▸ hmk⟩

/-- Claim C2: at every cell of the window where the rasterized mask is
false, the masking loops of `split_catchment` set both the
flow-direction grid and the accumulation grid to zero.  These masked
grids are exactly what `split_catchment` later hands to the snapping
and tracing steps. -/
theorem masked_grids_zero_outside_mask (mask : ℤ → ℤ → Bool) (m n : ℕ)
    (fdir0 acc0 : ℤ → ℤ → ℤ) (i j : ℤ)
    (hi0 : 0 ≤ i) (hi : i < (m : ℤ)) (hj0 : 0 ≤ j) (hj : j < (n : ℤ))
    (hmask : mask i j = false) :
    maskLoop mask m n fdir0 i j = 0 ∧ maskLoop mask m n acc0 i j = 0 := by
  constructor <;> rw [maskLoop_apply, if_pos ⟨hi0, hi, hj0, hj, hmask⟩]

/-- Witness for `masked_grids_zero_outside_mask` at a concrete 1×1 grid
whose mask is false everywhere. -/
theorem masked_grids_zero_outside_mask_witness :
    maskLoop (fun _ _ => false) 1 1 (fun _ _ => 7) 0 0 = 0 ∧
    maskLoop (fun _ _ => false) 1 1 (fun _ _ => 9) 0 0 = 0 :=
  masked_grids_zero_outside_mask (fun _ _ => false) 1 1 (fun _ _ => 7) (fun _ _ => 9)
    0 0 (by norm_num) (by norm_num) (by norm_num) (by norm_num) rfl

/-- The snap threshold chosen in `split_catchment`: `THRESHOLD_SINGLE`
when the caller sets `bSingleCatchment`, else `THRESHOLD_MULTIPLE`. -/
def numpixelsOf (bSingleCatchment : Bool) (tSingle tMultiple : ℤ) : ℤ :=
  if bSingleCatchment then tSingle else tMultiple

/-- The boolean stream grid `streams = acc > numpixels`, built from the
masked accumulation grid. -/
def streamsOf (mask : ℤ → ℤ → Bool) (m n : ℕ) (acc0 : ℤ → ℤ → ℤ)
    (bSingleCatchment : Bool) (tSingle tMultiple : ℤ) : ℤ → ℤ → Bool :=
  fun i j =>
    decide (maskLoop mask m n acc0 i j > numpixelsOf bSingleCatchment tSingle tMultiple)

/-- Claim C4: the stream grid used for snapping holds exactly the cells
whose masked accumulation value strictly exceeds the threshold, and the
threshold is `THRESHOLD_SINGLE` when the single-catchment flag is set
and `THRESHOLD_MULTIPLE` otherwise.  For in-window cells and a
non-negative threshold this also unfolds to: a raw-accumulation
exceedance inside the rasterized mask. -/
theorem streams_threshold_spec (mask : ℤ → ℤ → Bool) (m n : ℕ)
    (acc0 : ℤ → ℤ → ℤ) (bSingle : Bool) (tSingle tMultiple : ℤ) (i j : ℤ) :
    numpixelsOf true tSingle tMultiple = tSingle ∧
    numpixelsOf false tSingle tMultiple = tMultiple ∧
    (streamsOf mask m n acc0 bSingle tSingle tMultiple i j = true ↔
      maskLoop mask m n acc0 i j > numpixelsOf bSingle tSingle tMultiple) ∧
    (0 ≤ i → i < (m : ℤ) → 0 ≤ j → j < (n : ℤ) →
      0 ≤ numpixelsOf bSingle tSingle tMultiple →
      (streamsOf mask m n acc0 bSingle tSingle tMultiple i j = true ↔
        (mask i j = true ∧ acc0 i j > numpixelsOf bSingle tSingle tMultiple))) := by
  refine ⟨rfl, rfl, decide_eq_true_iff, ?_⟩
  intro hi0 hi hj0 hj ht
  rw [streamsOf, decide_eq_true_iff, maskLoop_apply]
  rcases Bool.eq_false_or_eq_true (mask i j) with hm | hm
  · rw [if_neg (by rintro ⟨-, -, -, -, h⟩; rw [hm] at h; cases h)]
    simp [hm]
  · rw [if_pos ⟨hi0, hi, hj0, hj, hm⟩]
    constructor
    · intro h; omega
    · rintro ⟨h, -⟩; rw [hm] at h; cases h

/-- Witness for `streams_threshold_spec` on a concrete 1×1 grid with
accumulation 7, mask true and single-catchment threshold 5. -/
theorem streams_threshold_spec_witness :
    numpixelsOf true 5 500 = 5 ∧
    numpixelsOf false 5 500 = 500 ∧
    (streamsOf (fun _ _ => true) 1 1 (fun _ _ => 7) true 5 500 0 0 = true ↔
      maskLoop (fun _ _ => true) 1 1 (fun _ _ => 7) 0 0 > numpixelsOf true 5 500) ∧
    (streamsOf (fun _ _ => true) 1 1 (fun _ _ => 7) true 5 500 0 0 = true ↔
      ((fun (_ _ : ℤ) => true) 0 0 = true ∧ (7:ℤ) > numpixelsOf true 5 500)) := by
  have h := streams_threshold_spec (fun _ _ => true) 1 1 (fun _ _ => 7) true 5 500 0 0
  exact ⟨h.1, h.2.1, h.2.2.1,
    h.2.2.2 (by norm_num) (by norm_num) (by norm_num) (by norm_num) (by decide)⟩

/-- The cells of an `m × n` window in row-major order. -/
def windowCellsList (m n : ℕ) : List (ℤ × ℤ) :=
  (List.range m).flatMap
    (fun (i : ℕ) => (List.range n).map (fun (j : ℕ) => ((i : ℤ), (j : ℤ))))

lemma mem_windowCellsList {m n : ℕ} {c : ℤ × ℤ} (h : c ∈ windowCellsList m n) :
    0 ≤ c.1 ∧ c.1 < (m : ℤ) ∧ 0 ≤ c.2 ∧ c.2 < (n : ℤ) := by
  rw [windowCellsList, List.mem_flatMap] at h
  obtain ⟨i, hi, hc⟩ := h
  rw [List.mem_map] at hc
  obtain ⟨j, hj, rfl⟩ := hc
  rw [List.mem_range] at hi hj
  refine ⟨by positivity, ?_, by positivity, ?_⟩ <;> · push_cast; omega

lemma windowCellsList_mem {m n : ℕ} {c : ℤ × ℤ}
    (h1 : 0 ≤ c.1) (h2 : c.1 < (m : ℤ)) (h3 : 0 ≤ c.2) (h4 : c.2 < (n : ℤ)) :
    c ∈ windowCellsList m n := by
  rw [windowCellsList, List.mem_flatMap]
  refine ⟨c.1.toNat, by rw [List.mem_range]; omega, ?_⟩
  rw [List.mem_map]
  exact ⟨c.2.toNat, by rw [List.mem_range]; omega,
    by rw [Int.toNat_of_nonneg h1, Int.toNat_of_nonneg h3]⟩

/-- Squared Euclidean distance between two coordinates. -/
def sqDist (p q : ℚ × ℚ) : ℚ := (p.1 - q.1) ^ 2 + (p.2 - q.2) ^ 2

/-- Modelled from the spec: the pysheds collaborator routine
`Grid.snap_to_mask` (not part of this repository) returns the
coordinate of the `streams`-true window cell nearest to the target
`(lng, lat)` (ties broken by row-major order), and fails — the source
catches the raised exception — when no true cell exists in the window. -/
def snap_to_mask (m n : ℕ) (streams : ℤ → ℤ → Bool)
    (cellCenter : ℤ × ℤ → ℚ × ℚ) (xy : ℚ × ℚ) : Option (ℚ × ℚ) :=
  match (windowCellsList m n).filter (fun c => streams c.1 c.2) with
  | [] => none
  | c :: rest =>
      some (cellCenter (rest.foldl
        (fun best c' =>
          if sqDist (cellCenter c') xy < sqDist (cellCenter best) xy then c' else best)
        c))

lemma snap_to_mask_eq_none {m n : ℕ} {streams : ℤ → ℤ → Bool}
    (cellCenter : ℤ × ℤ → ℚ × ℚ) (xy : ℚ × ℚ)
    (h : ∀ c ∈ windowCellsList m n, streams c.1 c.2 = false) :
    snap_to_mask m n streams cellCenter xy = none := by
  rw [snap_to_mask]
  have hfil : (windowCellsList m n).filter (fun c => streams c.1 c.2) = [] := by
    rw [List.filter_eq_nil_iff]
    intro c hc
    rw [h c hc]
    exact Bool.false_ne_true
  rw [hfil]

/-- A single-part polygon, abstracted to the two attributes `get_largest`
and the polygonization dispatch inspect: its area and an identity tag
distinguishing the parts. -/
structure SPoly where
  area : ℚ
  tag : ℕ
deriving DecidableEq

/-- A shapely geometry as consumed by `get_largest`: either a
single-part `Polygon` or a `MultiPolygon` with a list of parts
(`input_poly.geoms`). -/
inductive Geometry where
  | poly : SPoly → Geometry
  | multi : List SPoly → Geometry
deriving DecidableEq

/-- Running maximum used to embed Python's `max(areas)`. -/
def maxArea (q : SPoly) (qs : List SPoly) : ℚ :=
  qs.foldl (fun acc p => max acc p.area) q.area

/-- `get_largest` from `util.py`: a `MultiPolygon` is replaced by its
part of the largest area (`areas.index(max(areas))` picks the first
part attaining the maximum); any other geometry is returned unchanged.
`none` models the exception Python's `max([])` raises on an empty
`MultiPolygon`. -/
def get_largest (input_poly : Geometry) : Option SPoly :=
  match input_poly with
  | Geometry.multi polygons =>
      match polygons with
      | [] => none
      | q :: qs =>
          (q :: qs).find? (fun p => decide (p.area = maxArea q qs))
  | Geometry.poly p => some p

lemma le_maxArea_self (q : SPoly) (qs : List SPoly) : q.area ≤ maxArea q qs := by
  rw [maxArea]
  induction qs generalizing q with
  | nil => exact le_refl _
  | cons p ps IH =>
    rw [List.foldl_cons]
    exact le_trans (le_max_left _ _) (IH ⟨max q.area p.area, q.tag⟩)

lemma le_maxArea_mem (q : SPoly) (qs : List SPoly) :
    ∀ p ∈ qs, p.area ≤ maxArea q qs := by
  induction qs generalizing q with
  | nil => intro p hp; cases hp
  | cons r rs IH =>
    intro p hp
    rw [maxArea, List.foldl_cons]
    rcases List.mem_cons.mp hp with rfl | hp
    · exact le_trans (le_max_right _ _) (le_maxArea_self ⟨max q.area p.area, 0⟩ rs)
    · exact IH ⟨max q.area r.area, 0⟩ p hp

lemma maxArea_attained (q : SPoly) (qs : List SPoly) :
    ∃ p ∈ q :: qs, p.area = maxArea q qs := by
  induction qs generalizing q with
  | nil => exact ⟨q, List.mem_cons_self _ _, rfl⟩
  | cons r rs IH =>
    obtain ⟨p, hp, hval⟩ := IH ⟨max q.area r.area, if q.area ≤ r.area then r.tag else q.tag⟩
    have harea : maxArea q (r :: rs) = maxArea ⟨max q.area r.area, if q.area ≤ r.area then r.tag else q.tag⟩ rs := rfl
    rcases List.mem_cons.mp hp with rfl | hp
    · by_cases hle : q.area ≤ r.area
      · refine ⟨r, List.mem_cons_of_mem _ (List.mem_cons_self _ _), ?_⟩
        rw [harea, ← hval]
        simp [hle, max_eq_right hle]
      · refine ⟨q, List.mem_cons_self _ _, ?_⟩
        rw [harea, ← hval]
        simp [max_eq_left (le_of_not_le hle)]
    · exact ⟨p, List.mem_cons_of_mem _ (List.mem_cons_of_mem _ hp), harea ▸ hval⟩

/-- Claim C6: `get_largest` keeps only the part with the largest area of
a multi-part geometry (every part's area is at most the kept part's, and
the kept part is one of the parts), returns a single-part input
unchanged, and on two parts of areas 100 and 2 returns the 100-unit
part. -/
theorem get_largest_spec :
    (∀ p : SPoly, get_largest (Geometry.poly p) = some p) ∧
    (∀ (ps : List SPoly) (r : SPoly), get_largest (Geometry.multi ps) = some r →
      r ∈ ps ∧ ∀ p ∈ ps, p.area ≤ r.area) ∧
    (∀ ps : List SPoly, ps ≠ [] → ∃ r, get_largest (Geometry.multi ps) = some r) ∧
    get_largest (Geometry.multi [⟨100, 0⟩, ⟨2, 1⟩]) = some ⟨100, 0⟩ := by
  refine ⟨fun p => rfl, ?_, ?_, by decide⟩
  · intro ps r hr
    match ps with
    | [] => cases hr
    | q :: qs =>
      rw [get_largest] at hr
      have hmem : r ∈ q :: qs := List.mem_of_find?_eq_some hr
      have hval0 := List.find?_some hr
      have hval : r.area = maxArea q qs := by simpa using hval0
      refine ⟨hmem, ?_⟩
      intro p hp
      rw [hval]
      rcases List.mem_cons.mp hp with rfl | hp
      · exact le_maxArea_self _ _
      · exact le_maxArea_mem _ _ _ hp
  · intro ps hps
    match ps with
    | [] => exact absurd rfl hps
    | q :: qs =>
      rw [get_largest]
      obtain ⟨p, hp, hval⟩ := maxArea_attained q qs
      rcases hfind : (q :: qs).find? (fun p => decide (p.area = maxArea q qs)) with - | r
      · rw [List.find?_eq_none] at hfind
        exact absurd (by rw [decide_eq_true_iff]; exact hval) (hfind p hp)
      · exact ⟨r, hfind⟩

/-- Witness for `get_largest_spec` applying the multi-part conjunct to
the concrete two-part geometry with areas 100 and 2. -/
theorem get_largest_spec_witness :
    (⟨100, 0⟩ : SPoly) ∈ [(⟨100, 0⟩ : SPoly), ⟨2, 1⟩] ∧
    ∀ p ∈ [(⟨100, 0⟩ : SPoly), ⟨2, 1⟩], p.area ≤ (⟨100, 0⟩ : SPoly).area :=
  get_largest_spec.2.1 [⟨100, 0⟩, ⟨2, 1⟩] ⟨100, 0⟩ get_largest_spec.2.2.2

/-- The final polygon assembly of `split_catchment`: with more than one
polygonized shape the shapes are dissolved by the collaborator union
(`ops.unary_union`) and a multi-part union is reduced by `get_largest`;
with a single shape that shape is the answer.  `none` on an empty shape
list models the uncaught index error of `shapely_polygons[0]`. -/
def finalPolygon (unionFn : List SPoly → Geometry) (shapes : List SPoly) : Option SPoly :=
  if 1 < shapes.length then
    match unionFn shapes with
    | Geometry.multi parts => get_largest (Geometry.multi parts)
    | Geometry.poly p => some p
  else
    shapes.head?

/-- The embedding of `split_catchment` from `merit_detailed.py`.  The
external collaborators are parameters: `cellCenter` is the window's
affine transform, `tracefn` the pysheds `grid.catchment` watershed
trace (`none` models a raised exception), `shapesOf` the pysheds
`polygonize`, and `unionFn` the shapely `unary_union`.  The return
triple mirrors the source's three `return` statements, including the
`(None, lng_snap, lat_snap)` ordering of the trace-failure path. -/
def split_catchment (m n : ℕ) (mask : ℤ → ℤ → Bool) (fdir0 acc0 : ℤ → ℤ → ℤ)
    (lat lng : ℚ) (bSingleCatchment : Bool) (tSingle tMultiple : ℤ)
    (cellCenter : ℤ × ℤ → ℚ × ℚ)
    (tracefn : (ℤ → ℤ → ℤ) → ℚ × ℚ → Option (Finset (ℤ × ℤ)))
    (shapesOf : Finset (ℤ × ℤ) → List SPoly)
    (unionFn : List SPoly → Geometry) :
    Option SPoly × Option ℚ × Option ℚ :=
  match snap_to_mask m n (streamsOf mask m n acc0 bSingleCatchment tSingle tMultiple)
      cellCenter (lng, lat) with
  | none => (none, none, none)
  | some (lng_snap, lat_snap) =>
      match tracefn (maskLoop mask m n fdir0) (lng_snap, lat_snap) with
      | none => (none, some lng_snap, some lat_snap)
      | some catchRaster =>
          (finalPolygon unionFn (shapesOf catchRaster),
           some (lat_snap - halfpix), some (lng_snap + halfpix))

/-- Claim C5: when no window cell is on the stream grid (the threshold
exceedance set is empty) snapping fails, and `split_catchment` returns
no polygon and no snapped coordinates at all; the single threshold
chosen up front is the only one ever evaluated. -/
theorem no_stream_returns_none (m n : ℕ) (mask : ℤ → ℤ → Bool)
    (fdir0 acc0 : ℤ → ℤ → ℤ) (lat lng : ℚ) (bSingle : Bool) (tSingle tMultiple : ℤ)
    (cellCenter : ℤ × ℤ → ℚ × ℚ)
    (tracefn : (ℤ → ℤ → ℤ) → ℚ × ℚ → Option (Finset (ℤ × ℤ)))
    (shapesOf : Finset (ℤ × ℤ) → List SPoly) (unionFn : List SPoly → Geometry)
    (h : ∀ c ∈ windowCellsList m n,
      streamsOf mask m n acc0 bSingle tSingle tMultiple c.1 c.2 = false) :
    split_catchment m n mask fdir0 acc0 lat lng bSingle tSingle tMultiple
      cellCenter tracefn shapesOf unionFn = (none, none, none) := by
  rw [split_catchment, snap_to_mask_eq_none cellCenter (lng, lat) h]

/-- Witness for `no_stream_returns_none` on a concrete 1×1 window whose
accumulation is everywhere 0 with threshold 1. -/
theorem no_stream_returns_none_witness :
    split_catchment 1 1 (fun _ _ => true) (fun _ _ => 0) (fun _ _ => 0) 20 10 true 1 500
      (fun _ => (10, 20)) (fun _ _ => none) (fun _ => []) (fun _ => Geometry.multi []) =
      (none, none, none) :=
  no_stream_returns_none 1 1 (fun _ _ => true) (fun _ _ => 0) (fun _ _ => 0) 20 10 true 1 500
    (fun _ => (10, 20)) (fun _ _ => none) (fun _ => []) (fun _ => Geometry.multi [])
    (by decide)

/-- Claim C7: on the success path the returned snapped coordinate is the
raw snapped coordinate nudged by exactly one half-pixel — `halfpix`
added to the longitude and subtracted from the latitude. -/
theorem success_returns_nudged_snap (m n : ℕ) (mask : ℤ → ℤ → Bool)
    (fdir0 acc0 : ℤ → ℤ → ℤ) (lat lng : ℚ) (bSingle : Bool) (tSingle tMultiple : ℤ)
    (cellCenter : ℤ × ℤ → ℚ × ℚ)
    (tracefn : (ℤ → ℤ → ℤ) → ℚ × ℚ → Option (Finset (ℤ × ℤ)))
    (shapesOf : Finset (ℤ × ℤ) → List SPoly) (unionFn : List SPoly → Geometry)
    (lngr latr : ℚ) (cs : Finset (ℤ × ℤ))
    (hsnap : snap_to_mask m n (streamsOf mask m n acc0 bSingle tSingle tMultiple)
      cellCenter (lng, lat) = some (lngr, latr))
    (htr : tracefn (maskLoop mask m n fdir0) (lngr, latr) = some cs) :
    split_catchment m n mask fdir0 acc0 lat lng bSingle tSingle tMultiple
      cellCenter tracefn shapesOf unionFn =
      (finalPolygon unionFn (shapesOf cs), some (latr - halfpix), some (lngr + halfpix)) := by
  rw [split_catchment, hsnap]
  dsimp only
  rw [htr]

/-- Witness for `success_returns_nudged_snap` on a concrete 1×1 window
where the snap lands at `(10, 20)` and the trace returns the empty cell
set. -/
theorem success_returns_nudged_snap_witness :
    split_catchment 1 1 (fun _ _ => true) (fun _ _ => 0) (fun _ _ => 5) 20 10 true 1 500
      (fun _ => (10, 20)) (fun _ _ => some ∅) (fun _ => [⟨1, 0⟩]) (fun _ => Geometry.multi []) =
      (finalPolygon (fun _ => Geometry.multi []) [⟨1, 0⟩],
       some (20 - halfpix), some (10 + halfpix)) :=
  success_returns_nudged_snap 1 1 (fun _ _ => true) (fun _ _ => 0) (fun _ _ => 5) 20 10
    true 1 500 (fun _ => (10, 20)) (fun _ _ => some ∅) (fun _ => [⟨1, 0⟩])
    (fun _ => Geometry.multi []) 10 20 ∅ rfl rfl

/-- Claim C1 (code evaluated at the failing input): when snapping
succeeds and the trace then fails, `split_catchment` returns
`(None, lng_snap, lat_snap)` — the longitude in the slot the docstring
and the success path reserve for the latitude and vice versa.  At this
input the snap is `(lng, lat) = (10, 20)`, the trace raises, and the
function returns `(none, 10, 20)` where the documented order requires
`(none, 20, 10)`; the last conjunct shows the two orders really differ. -/
theorem split_catchment_trace_failure_swaps_coords :
    split_catchment 1 1 (fun _ _ => true) (fun _ _ => 0) (fun _ _ => 5) 20 10 true 1 500
      (fun _ => (10, 20)) (fun _ _ => none) (fun _ => []) (fun _ => Geometry.multi []) =
      (none, some 10, some 20) ∧ (10 : ℚ) ≠ 20 := by
  exact ⟨rfl, by norm_num⟩

/-- Claim C10: the half-pixel nudge is applied only on the success path.
With the same snapped coordinate `(lngr, latr)`, the trace-failure path
returns the raw un-nudged values while the success path returns
`latr - halfpix` and `lngr + halfpix`, so per axis the two paths differ
by exactly a half-pixel (`+halfpix` in longitude, `-halfpix` in
latitude). -/
theorem nudge_only_on_success (m n : ℕ) (mask : ℤ → ℤ → Bool)
    (fdir0 acc0 : ℤ → ℤ → ℤ) (lat lng : ℚ) (bSingle : Bool) (tSingle tMultiple : ℤ)
    (cellCenter : ℤ × ℤ → ℚ × ℚ)
    (tr1 tr2 : (ℤ → ℤ → ℤ) → ℚ × ℚ → Option (Finset (ℤ × ℤ)))
    (shapesOf : Finset (ℤ × ℤ) → List SPoly) (unionFn : List SPoly → Geometry)
    (lngr latr : ℚ) (cs : Finset (ℤ × ℤ))
    (hsnap : snap_to_mask m n (streamsOf mask m n acc0 bSingle tSingle tMultiple)
      cellCenter (lng, lat) = some (lngr, latr))
    (h1 : tr1 (maskLoop mask m n fdir0) (lngr, latr) = none)
    (h2 : tr2 (maskLoop mask m n fdir0) (lngr, latr) = some cs) :
    split_catchment m n mask fdir0 acc0 lat lng bSingle tSingle tMultiple
      cellCenter tr1 shapesOf unionFn = (none, some lngr, some latr) ∧
    (split_catchment m n mask fdir0 acc0 lat lng bSingle tSingle tMultiple
      cellCenter tr2 shapesOf unionFn).2.1 = some (latr - halfpix) ∧
    (split_catchment m n mask fdir0 acc0 lat lng bSingle tSingle tMultiple
      cellCenter tr2 shapesOf unionFn).2.2 = some (lngr + halfpix) := by
  refine ⟨?_, ?_, ?_⟩
  · rw [split_catchment, hsnap]
    dsimp only
    rw [h1]
  · rw [split_catchment, hsnap]
    dsimp only
    rw [h2]
  · rw [split_catchment, hsnap]
    dsimp only
    rw [h2]

/-- Witness for `nudge_only_on_success` on the concrete 1×1 window of
the other witnesses, with a failing and a succeeding tracer. -/
theorem nudge_only_on_success_witness :
    split_catchment 1 1 (fun _ _ => true) (fun _ _ => 0) (fun _ _ => 5) 20 10 true 1 500
      (fun _ => (10, 20)) (fun _ _ => none) (fun _ => []) (fun _ => Geometry.multi []) =
      (none, some 10, some 20) ∧
    (split_catchment 1 1 (fun _ _ => true) (fun _ _ => 0) (fun _ _ => 5) 20 10 true 1 500
      (fun _ => (10, 20)) (fun _ _ => some ∅) (fun _ => []) (fun _ => Geometry.multi [])).2.1 =
      some (20 - halfpix) ∧
    (split_catchment 1 1 (fun _ _ => true) (fun _ _ => 0) (fun _ _ => 5) 20 10 true 1 500
      (fun _ => (10, 20)) (fun _ _ => some ∅) (fun _ => []) (fun _ => Geometry.multi [])).2.2 =
      some (10 + halfpix) :=
  nudge_only_on_success 1 1 (fun _ _ => true) (fun _ _ => 0) (fun _ _ => 5) 20 10 true 1 500
    (fun _ => (10, 20)) (fun _ _ => none) (fun _ _ => some ∅) (fun _ => [])
    (fun _ => Geometry.multi []) 10 20 ∅ rfl rfl rfl

/-- ESRI D8 flow-direction decoding: the offset `(Δrow, Δcol)` of the
single downstream neighbour for a defined code, `none` for `0` or any
code outside `{1,2,4,8,16,32,64,128}` (nodata/sink).  Row indices grow
southward, matching the raster layout. -/
def dirOffset (code : ℤ) : Option (ℤ × ℤ) :=
  if code = 1 then some (0, 1)
  else if code = 2 then some (1, 1)
  else if code = 4 then some (1, 0)
  else if code = 8 then some (1, -1)
  else if code = 16 then some (0, -1)
  else if code = 32 then some (-1, -1)
  else if code = 64 then some (-1, 0)
  else if code = 128 then some (-1, 1)
  else none

/-- The downstream neighbour of a cell under a flow-direction grid, if
its code is defined. -/
def downstream (fdir : ℤ → ℤ → ℤ) (c : ℤ × ℤ) : Option (ℤ × ℤ) :=
  match dirOffset (fdir c.1 c.2) with
  | none => none
  | some (di, dj) => some (c.1 + di, c.2 + dj)

/-- The eight neighbours of a cell. -/
def neighborList (c : ℤ × ℤ) : List (ℤ × ℤ) :=
  [(c.1, c.2 + 1), (c.1 + 1, c.2 + 1), (c.1 + 1, c.2), (c.1 + 1, c.2 - 1),
   (c.1, c.2 - 1), (c.1 - 1, c.2 - 1), (c.1 - 1, c.2), (c.1 - 1, c.2 + 1)]

/-- The unvisited in-window neighbours of `c` whose flow direction
points back at `c` — the cells the traversal admits when `c` is taken
off the frontier (deduplicated, so each is admitted once). -/
def newCells (fdir : ℤ → ℤ → ℤ) (W : Finset (ℤ × ℤ)) (vis : Finset (ℤ × ℤ))
    (c : ℤ × ℤ) : List (ℤ × ℤ) :=
  ((neighborList c).filter
    (fun u => decide (u ∈ W ∧ u ∉ vis ∧ downstream fdir u = some c))).dedup

/-- The iterative worklist traversal: take a cell off the explicit
frontier, admit its unvisited upstream neighbours, and repeat until the
frontier is empty (or the step budget runs out). -/
def traceGo (fdir : ℤ → ℤ → ℤ) (W : Finset (ℤ × ℤ)) :
    ℕ → List (ℤ × ℤ) → Finset (ℤ × ℤ) → Finset (ℤ × ℤ)
  | _, [], vis => vis
  | 0, _ :: _, vis => vis
  | fuel + 1, c :: rest, vis =>
      let new := newCells fdir W vis c
      traceGo fdir W fuel (rest ++ new) (vis ∪ new.toFinset)

/-- Modelled from the spec: the pysheds collaborator `grid.catchment`
(the `UpstreamTracer`, not part of this repository) computes the set of
window cells hydrologically upstream of the seed cell by an iterative
breadth-first traversal with an explicit frontier, seeded at the
snapped pour point's cell; `1 + 2 * W.card` steps always suffice (see
`traceGo_fuel_stable`). -/
def upstreamTrace (fdir : ℤ → ℤ → ℤ) (W : Finset (ℤ × ℤ)) (seed : ℤ × ℤ) :
    Finset (ℤ × ℤ) :=
  traceGo fdir W (1 + 2 * W.card) [seed] {seed}

lemma traceGo_nil (fdir : ℤ → ℤ → ℤ) (W : Finset (ℤ × ℤ)) (fuel : ℕ)
    (vis : Finset (ℤ × ℤ)) : traceGo fdir W fuel [] vis = vis := by
  cases fuel <;> rfl

lemma mem_newCells {fdir : ℤ → ℤ → ℤ} {W vis : Finset (ℤ × ℤ)} {c u : ℤ × ℤ}
    (hu : u ∈ newCells fdir W vis c) :
    u ∈ neighborList c ∧ u ∈ W ∧ u ∉ vis ∧ downstream fdir u = some c := by
  rw [newCells, List.mem_dedup, List.mem_filter, decide_eq_true_iff] at hu
  exact ⟨hu.1, hu.2⟩

lemma newCells_subset (fdir : ℤ → ℤ → ℤ) (W vis : Finset (ℤ × ℤ)) (c : ℤ × ℤ) :
    (newCells fdir W vis c).toFinset ⊆ W \ vis := by
  intro u hu
  rw [List.mem_toFinset] at hu
  obtain ⟨-, hW, hv, -⟩ := mem_newCells hu
  rw [Finset.mem_sdiff]
  exact ⟨hW, hv⟩

lemma traceGo_mono (fdir : ℤ → ℤ → ℤ) (W : Finset (ℤ × ℤ)) :
    ∀ (fuel : ℕ) (q : List (ℤ × ℤ)) (vis : Finset (ℤ × ℤ)),
      vis ⊆ traceGo fdir W fuel q vis := by
  intro fuel
  induction fuel with
  | zero => intro q vis; cases q <;> exact Finset.Subset.refl _
  | succ fuel IH =>
    intro q vis
    cases q with
    | nil => exact Finset.Subset.refl _
    | cons c rest =>
      exact Finset.Subset.trans Finset.subset_union_left (IH _ _)

lemma traceGo_closed (fdir : ℤ → ℤ → ℤ) (W : Finset (ℤ × ℤ)) (M : Finset (ℤ × ℤ))
    (hfd : ∀ u : ℤ × ℤ, u ∉ M → fdir u.1 u.2 = 0) :
    ∀ (fuel : ℕ) (q : List (ℤ × ℤ)) (vis : Finset (ℤ × ℤ)),
      vis ⊆ M → traceGo fdir W fuel q vis ⊆ M := by
  intro fuel
  induction fuel with
  | zero => intro q vis hvis; cases q <;> exact hvis
  | succ fuel IH =>
    intro q vis hvis
    cases q with
    | nil => exact hvis
    | cons c rest =>
      refine IH _ _ (Finset.union_subset hvis ?_)
      intro u hu
      rw [List.mem_toFinset] at hu
      obtain ⟨-, -, -, hdown⟩ := mem_newCells hu
      by_contra hum
      rw [downstream, hfd u hum] at hdown
      cases hdown

/-- Claim C8: every result of the upstream trace contains the seed
cell, and whenever the seed lies in the catchment mask and the
flow-direction grid has been zeroed outside the mask (as
`split_catchment` arranges before tracing), the traced cell set is a
subset of the mask-true cells. -/
theorem upstreamTrace_seed_mem_and_subset_mask (fdir : ℤ → ℤ → ℤ)
    (W : Finset (ℤ × ℤ)) (seed : ℤ × ℤ) (M : Finset (ℤ × ℤ))
    (hseed : seed ∈ M) (hfd : ∀ u : ℤ × ℤ, u ∉ M → fdir u.1 u.2 = 0) :
    seed ∈ upstreamTrace fdir W seed ∧ upstreamTrace fdir W seed ⊆ M := by
  constructor
  · exact traceGo_mono fdir W _ _ _ (Finset.mem_singleton_self seed)
  · exact traceGo_closed fdir W M hfd _ _ _ (Finset.singleton_subset_iff.mpr hseed)

/-- Witness for `upstreamTrace_seed_mem_and_subset_mask` on a 1-cell
window with an everywhere-undefined (zero) flow direction. -/
theorem upstreamTrace_seed_mem_and_subset_mask_witness :
    (0, 0) ∈ upstreamTrace (fun _ _ => 0) {((0 : ℤ), (0 : ℤ))} (0, 0) ∧
    upstreamTrace (fun _ _ => 0) {((0 : ℤ), (0 : ℤ))} (0, 0) ⊆ {((0 : ℤ), (0 : ℤ))} :=
  upstreamTrace_seed_mem_and_subset_mask (fun _ _ => 0) {((0 : ℤ), (0 : ℤ))} (0, 0)
    {((0 : ℤ), (0 : ℤ))} (Finset.mem_singleton_self _) (fun _ _ => rfl)

lemma traceGo_stable_aux (fdir : ℤ → ℤ → ℤ) (W : Finset (ℤ × ℤ)) :
    ∀ (b : ℕ) (q : List (ℤ × ℤ)) (vis : Finset (ℤ × ℤ)) (fuel : ℕ),
      q.length + 2 * (W \ vis).card ≤ b → b ≤ fuel →
      traceGo fdir W fuel q vis = traceGo fdir W b q vis := by
  intro b
  induction b with
  | zero =>
    intro q vis fuel hb hf
    have hq : q = [] := List.length_eq_zero.mp (by omega)
    subst hq
    rw [traceGo_nil, traceGo_nil]
  | succ b IH =>
    intro q vis fuel hb hf
    cases q with
    | nil => rw [traceGo_nil, traceGo_nil]
    | cons c rest =>
      obtain ⟨f, rfl⟩ : ∃ f, fuel = f + 1 := ⟨fuel - 1, by omega⟩
      show traceGo fdir W f (rest ++ newCells fdir W vis c)
          (vis ∪ (newCells fdir W vis c).toFinset) =
        traceGo fdir W b (rest ++ newCells fdir W vis c)
          (vis ∪ (newCells fdir W vis c).toFinset)
      set new := newCells fdir W vis c with hnew
      have hsub : new.toFinset ⊆ W \ vis := newCells_subset fdir W vis c
      have hdiff : W \ (vis ∪ new.toFinset) = (W \ vis) \ new.toFinset := by
        ext u
        simp only [Finset.mem_sdiff, Finset.mem_union]
        tauto
      have hcard : (W \ (vis ∪ new.toFinset)).card + new.toFinset.card = (W \ vis).card := by
        rw [hdiff]
        exact Finset.card_sdiff_add_card_eq_card hsub
      have hlen : (rest ++ new).length = rest.length + new.toFinset.card := by
        rw [List.length_append,
          List.toFinset_card_of_nodup (by rw [hnew, newCells]; exact List.nodup_dedup _)]
      apply IH
      · rw [hlen]
        have := List.length_cons c rest ▸ hb
        omega
      · omega

/-- Claim C9: the upstream traversal is an iterative worklist loop that
admits each window cell at most once, so a step budget linear in the
window size — `1 + 2 * W.card`, independent of any call-stack recursion
limit — already reaches the final answer: granting the loop any larger
budget can never change its result, for every flow-direction grid,
window and seed. -/
theorem traceGo_fuel_stable (fdir : ℤ → ℤ → ℤ) (W : Finset (ℤ × ℤ))
    (seed : ℤ × ℤ) (extra : ℕ) :
    traceGo fdir W (1 + 2 * W.card + extra) [seed] {seed} =
      upstreamTrace fdir W seed := by
  rw [upstreamTrace]
  have hb : [seed].length + 2 * (W \ {seed}).card ≤ 1 + 2 * W.card := by
    have : (W \ {seed}).card ≤ W.card := Finset.card_le_card (Finset.sdiff_subset)
    simp only [List.length_singleton]
    omega
  exact traceGo_stable_aux fdir W (1 + 2 * W.card) [seed] {seed}
    (1 + 2 * W.card + extra) hb (by omega)

end Delineator
